import Mathlib

/-!
# Verification of the sampling orchestration core (`src/video_sampler/sampler.py`)

Shallow embedding of the sampling engines (`VideoSampler.sample`,
`SegmentSampler.sample`, `VideoSampler.write_queue`, `Worker.queue_reader`)
from `sampler.py`.  Timestamps are modelled as rationals.  The frame buffer
and the gate are external collaborators (their code lives outside this
repository's core); the engine is parametrised over them, exactly mirroring
the call sites in `sampler.py` (`frame_buffer.add`, `frame_buffer.final_flush`,
`gate(*res)`, `gate.flush()`).

The decoded stream is modelled as a list of `Option ℚ`: `none` stands for a
frame that is `None` or whose `.time` attribute raises (both are skipped by
the source), `some t` for a frame with readable timestamp `t`.  The value of
a frame's pixels never influences the control flow of `sampler.py`, so a
frame is represented by its timestamp and decode index.
-/

/-- Opaque image payload. `isPIL` models `isinstance(x, Image.Image)` as
tested by `Worker.queue_reader`. -/
structure Img where
  isPIL : Bool
deriving DecidableEq, Repr

/-- Modelled from the spec: `FrameObject` of `schemas.py` (not under `src/`):
an image-or-null payload plus metadata carrying at least `frame_time` and the
reserved boolean key `end` (`metadata.get("end", False)` in the consumer). -/
structure FrameObject where
  frame : Option Img
  isEnd : Bool
  frame_time : ℚ
deriving DecidableEq, Repr

/-- Modelled from the spec: `PROCESSING_DONE_ITERABLE` of `schemas.py`
(not under `src/`): the terminal sentinel batch, whose sole element has
`frame = null` and `metadata.end = true`. -/
def PROCESSING_DONE_ITERABLE : List FrameObject :=
  [{ frame := none, isEnd := true, frame_time := 0 }]

/-- The result of one gate invocation: accepted frames plus the count `N` of
frames the gate discarded in this call (`gated_obj.frames`, `gated_obj.N`). -/
structure GatedObj where
  frames : List FrameObject
  N : ℕ
deriving Repr

/-- The collaborator interface the engine calls into, with buffer state `σ`,
gate state `γ` and completed-group type `G`.

* `bufAdd` is `frame_buffer.add(frame_pil, metadata)`: it receives the frame
  (represented by its `frame_time` and `frame_indx` metadata) and returns the
  new buffer state plus an optional completed group (`none` models a falsy
  result of `add`).
* `bufFlush` is `frame_buffer.final_flush()`: the sequence of `res` values the
  generator yields from the current buffer state (`none` models a falsy `res`,
  which the engine's `if res:` check drops).
* `gate` is `self.gate(*res)`, stateful.
* `gateFlush` is `self.gate.flush()`. -/
structure Collab (σ γ G : Type) where
  bufAdd : σ → ℚ → ℕ → σ × Option G
  bufFlush : σ → List (Option G)
  gate : γ → G → γ × GatedObj
  gateFlush : γ → γ × GatedObj

/-- The engine state threaded through one `sample` run: `prevTime` and the
four stat counters of `self.stats`, the collaborator states, and the batches
yielded so far (`out`).  Two observation fields record what the claims
quantify over: `accepted` logs the timestamp of every frame submitted to
`frame_buffer.add`, and `gateNs` logs the `N` of every gate invocation. -/
structure EngState (σ γ : Type) where
  prevTime : ℚ
  total : ℕ
  decoded : ℕ
  produced : ℕ
  gated : ℕ
  buf : σ
  gst : γ
  out : List (List FrameObject)
  accepted : List ℚ
  gateNs : List ℕ

/-- State at the top of `sample`: `self.stats.clear()`,
`self.frame_buffer.clear()` (yielding the cleared buffer state `buf0`),
`prev_time = -10`.  The gate is NOT cleared by `sample`; its state at entry is
`gst0`. -/
def initState {σ γ : Type} (buf0 : σ) (gst0 : γ) : EngState σ γ :=
  { prevTime := -10, total := 0, decoded := 0, produced := 0, gated := 0,
    buf := buf0, gst := gst0, out := [], accepted := [], gateNs := [] }

/-- The accepted-frame tail of the loop body (`sampler.py` lines 89-109 and
194-214, identical in both engines): set `prev_time = ftime`, increment
`decoded`, submit to the buffer; if the buffer returns a truthy completed
group, invoke the gate, increment `produced`, add `N` to `gated`, and yield
the gate's frames when non-empty. -/
def acceptFrame {σ γ G : Type} (C : Collab σ γ G) (s : EngState σ γ)
    (ftime : ℚ) (idx : ℕ) : EngState σ γ :=
  let r := C.bufAdd s.buf ftime idx
  let s2 := { s with prevTime := ftime, decoded := s.decoded + 1, buf := r.1,
                     accepted := s.accepted ++ [ftime] }
  match r.2 with
  | none => s2
  | some g =>
    let q := C.gate s2.gst g
    let s3 := { s2 with gst := q.1, produced := s2.produced + 1,
                        gated := s2.gated + q.2.N, gateNs := s2.gateNs ++ [q.2.N] }
    if q.2.frames.isEmpty then s3 else { s3 with out := s3.out ++ [q.2.frames] }

/-- One iteration of the base engine's decode loop (`sampler.py` lines
77-109): skip unreadable frames; increment `total`; reject when
`ftime - prev_time < min_frame_interval_sec`; otherwise accept. -/
def decodeStep {σ γ G : Type} (C : Collab σ γ G) (minInt : ℚ)
    (s : EngState σ γ) (p : ℕ × Option ℚ) : EngState σ γ :=
  match p.2 with
  | none => s
  | some ftime =>
    let s1 := { s with total := s.total + 1 }
    if ftime - s1.prevTime < minInt then s1
    else acceptFrame C s1 ftime p.1

/-- The base engine's decode loop over the remaining frames, carrying the
`enumerate` index `i` (which numbers every decoded frame, unreadable ones
included). -/
def VideoSampler.decodeLoop {σ γ G : Type} (C : Collab σ γ G) (minInt : ℚ) :
    ℕ → EngState σ γ → List (Option ℚ) → EngState σ γ
  | _, s, [] => s
  | i, s, fr :: rest =>
    VideoSampler.decodeLoop C minInt (i + 1) (decodeStep C minInt s (i, fr)) rest

/-- One `res` of `final_flush` inside `flush_buffer` (`sampler.py` lines
48-54): truthy groups increment `produced`, go through the gate, add `N` to
`gated`, and yield the gate's frames when non-empty. -/
def flushStep {σ γ G : Type} (C : Collab σ γ G) (s : EngState σ γ)
    (r : Option G) : EngState σ γ :=
  match r with
  | none => s
  | some g =>
    let s1 := { s with produced := s.produced + 1 }
    let q := C.gate s1.gst g
    let s2 := { s1 with gst := q.1, gated := s1.gated + q.2.N,
                        gateNs := s1.gateNs ++ [q.2.N] }
    if q.2.frames.isEmpty then s2 else { s2 with out := s2.out ++ [q.2.frames] }

/-- `VideoSampler.flush_buffer` (`sampler.py` lines 46-59): drain
`final_flush` through the gate, call `gate.flush()`, yield its frames when
non-empty, then yield the terminal sentinel batch. -/
def flush_buffer {σ γ G : Type} (C : Collab σ γ G) (s : EngState σ γ) :
    EngState σ γ :=
  let s1 := (C.bufFlush s.buf).foldl (flushStep C) s
  let q := C.gateFlush s1.gst
  let s2 := { s1 with gst := q.1, gated := s1.gated + q.2.N,
                      gateNs := s1.gateNs ++ [q.2.N] }
  let s3 := if q.2.frames.isEmpty then s2 else { s2 with out := s2.out ++ [q.2.frames] }
  { s3 with out := s3.out ++ [PROCESSING_DONE_ITERABLE] }

/-- `VideoSampler.sample` (`sampler.py` lines 61-112): reset stats and
buffer, run the decode loop from `prev_time = -10`, then flush. -/
def VideoSampler.sample {σ γ G : Type} (C : Collab σ γ G) (minInt : ℚ)
    (buf0 : σ) (gst0 : γ) (frames : List (Option ℚ)) : EngState σ γ :=
  flush_buffer C (VideoSampler.decodeLoop C minInt 0 (initState buf0 gst0) frames)

/-- `VideoSampler.write_queue` (`sampler.py` lines 114-125): push every batch
`sample` yields onto the queue; if a recognised av error
(`av.IsADirectoryError` / `av.InvalidDataError`) interrupts the iteration —
modelled by `avErr = true`, the decode source failing after yielding
`frames` — log and push the terminal sentinel batch.  The result is the list
of batches pushed onto `q`, in order. -/
def VideoSampler.write_queue {σ γ G : Type} (C : Collab σ γ G) (minInt : ℚ)
    (buf0 : σ) (gst0 : γ) (frames : List (Option ℚ)) (avErr : Bool) :
    List (List FrameObject) :=
  if avErr then
    (VideoSampler.decodeLoop C minInt 0 (initState buf0 gst0) frames).out
      ++ [PROCESSING_DONE_ITERABLE]
  else (VideoSampler.sample C minInt buf0 gst0 frames).out

/-- A trivial collaborator instance: a buffer that never completes a group
and a gate that accepts nothing and discards nothing. -/
def trivialCollab : Collab Unit Unit Unit :=
  { bufAdd := fun _ _ _ => ((), none), bufFlush := fun _ => [],
    gate := fun _ _ => ((), { frames := [], N := 0 }),
    gateFlush := fun _ => ((), { frames := [], N := 0 }) }

/-- A recording collaborator instance: the buffer state is the list of
`(frame_time, frame_indx)` pairs submitted to `add`, no group ever
completes. -/
def recCollab : Collab (List (ℚ × ℕ)) Unit Unit :=
  { bufAdd := fun b t i => (b ++ [(t, i)], none), bufFlush := fun _ => [],
    gate := fun _ _ => ((), { frames := [], N := 0 }),
    gateFlush := fun _ => ((), { frames := [], N := 0 }) }

/-- A segment as produced by the segment generator (`subtitle_line` of
`keyword_capture.py`): start and end times in milliseconds
(`sampler.py` divides both by 1000). -/
structure subtitle_line where
  start_time : ℚ
  end_time : ℚ
deriving DecidableEq, Repr

/-- State of `SegmentSampler.sample`'s loop: the base engine state plus the
current segment boundaries in seconds, the not-yet-pulled tail of the
segment generator (`rem`), the segments pulled so far in pull order
(`pulled`, an observation log), and `absolute_stop`. -/
structure SegState (σ γ : Type) where
  eng : EngState σ γ
  segStart : ℚ
  segEnd : ℚ
  rem : List subtitle_line
  pulled : List subtitle_line
  stop : Bool

/-- The `while ftime > segment_boundary_end_sec` loop (`sampler.py` lines
164-176): pull segments until the current frame no longer exceeds the
current segment's end; on `StopIteration` set `absolute_stop`.  Returns the
new `(segStart, segEnd, pulled, rem, absolute_stop)`. -/
def advanceSeg (ftime : ℚ) (segStart segEnd : ℚ)
    (pulled rem : List subtitle_line) :
    ℚ × ℚ × List subtitle_line × List subtitle_line × Bool :=
  if ftime ≤ segEnd then (segStart, segEnd, pulled, rem, false)
  else
    match rem with
    | [] => (segStart, segEnd, pulled, [], true)
    | sg :: rest =>
      advanceSeg ftime (sg.start_time / 1000) (sg.end_time / 1000)
        (pulled ++ [sg]) rest
termination_by rem.length

/-- One iteration of the segment-aware decode loop (`sampler.py` lines
155-214): after `absolute_stop` was set the loop has been broken out of, so
later frames leave the state unchanged; otherwise advance segments, break on
exhaustion, skip a frame with `ftime <= segment_boundary_start_sec` without
touching any stat, and otherwise proceed exactly as the base engine from the
`total` increment onward. -/
def segStep {σ γ G : Type} (C : Collab σ γ G) (minInt : ℚ)
    (s : SegState σ γ) (p : ℕ × Option ℚ) : SegState σ γ :=
  if s.stop then s
  else
    match p.2 with
    | none => s
    | some ftime =>
      let a := advanceSeg ftime s.segStart s.segEnd s.pulled s.rem
      let s1 : SegState σ γ :=
        { s with segStart := a.1, segEnd := a.2.1, pulled := a.2.2.1,
                 rem := a.2.2.2.1, stop := a.2.2.2.2 }
      if s1.stop then s1
      else if ftime ≤ s1.segStart then s1
      else
        let e1 := { s1.eng with total := s1.eng.total + 1 }
        if ftime - e1.prevTime < minInt then { s1 with eng := e1 }
        else { s1 with eng := acceptFrame C e1 ftime p.1 }

/-- The segment-aware decode loop over the remaining frames, carrying the
`enumerate` index. -/
def SegmentSampler.decodeLoop {σ γ G : Type} (C : Collab σ γ G) (minInt : ℚ) :
    ℕ → SegState σ γ → List (Option ℚ) → SegState σ γ
  | _, s, [] => s
  | i, s, fr :: rest =>
    SegmentSampler.decodeLoop C minInt (i + 1) (segStep C minInt s (i, fr)) rest

/-- The body of `SegmentSampler.sample` once the initial segment `sg` has
been obtained (`sampler.py` lines 147-217): initialise the boundaries from
`sg`, run the decode loop, then flush. -/
def SegmentSampler.run {σ γ G : Type} (C : Collab σ γ G) (minInt : ℚ)
    (buf0 : σ) (gst0 : γ) (sg : subtitle_line) (rest : List subtitle_line)
    (frames : List (Option ℚ)) : SegState σ γ :=
  let s0 : SegState σ γ :=
    { eng := initState buf0 gst0, segStart := sg.start_time / 1000,
      segEnd := sg.end_time / 1000, rem := rest, pulled := [sg], stop := false }
  let s1 := SegmentSampler.decodeLoop C minInt 0 s0 frames
  { s1 with eng := flush_buffer C s1.eng }

/-- `SegmentSampler.sample` (`sampler.py` lines 135-217).  The first
statement after the resets is `next_segment = next(self.segment_generator)`
outside any `try`: on an empty segment sequence the `StopIteration` escapes
the generator (becoming a `RuntimeError` under PEP 479) and no batch is ever
yielded — modelled by `none`.  Otherwise the run completes and yields the
batches of the resulting state. -/
def SegmentSampler.sample {σ γ G : Type} (C : Collab σ γ G) (minInt : ℚ)
    (buf0 : σ) (gst0 : γ) (segs : List subtitle_line)
    (frames : List (Option ℚ)) : Option (SegState σ γ) :=
  match segs with
  | [] => none
  | sg :: rest => some (SegmentSampler.run C minInt buf0 gst0 sg rest frames)

/-- One batch scan of `Worker.queue_reader`'s inner `for` loop
(`sampler.py` lines 284-295): walk the batch in order; on an end-marked
object return immediately (later elements are never inspected); otherwise
save the frame as `<frame_time>.jpg` when it is a real PIL image and
`devnull` is off.  Returns the saved frame times (the `.jpg` name stems) and
whether the terminal object was hit. -/
def processBatch (devnull : Bool) : List FrameObject → List ℚ × Bool
  | [] => ([], false)
  | f :: fs =>
    if f.isEnd then ([], true)
    else
      let r := processBatch devnull fs
      if f.frame.any Img.isPIL && !devnull then (f.frame_time :: r.1, r.2) else r

/-- `Worker.queue_reader` (`sampler.py` lines 272-296), abstracted over real
time: the argument is the sequence of batches the producer eventually puts on
the queue, in arrival order.  The consumer polls forever when no terminal
object ever arrives (`none`); otherwise it returns at the first end-marked
object, having saved every eligible frame inspected before it (`some` of the
saved frame times in order). -/
def Worker.queue_reader (devnull : Bool) :
    List (List FrameObject) → Option (List ℚ)
  | [] => none
  | b :: bs =>
    let r := processBatch devnull b
    if r.2 then some r.1
    else (Worker.queue_reader devnull bs).map (fun l => r.1 ++ l)

/-! ## Helper lemmas about the engine's state transitions -/

theorem getLast_append_singleton {α : Type} (l : List α) (a : α) :
    (l ++ [a]).getLast? = some a := by
  induction l with
  | nil => rfl
  | cons x xs ih =>
    cases xs with
    | nil => rfl
    | cons y ys => simpa using ih

theorem acceptFrame_core {σ γ G : Type} (C : Collab σ γ G) (s : EngState σ γ)
    (t : ℚ) (i : ℕ) :
    (acceptFrame C s t i).accepted = s.accepted ++ [t]
    ∧ (acceptFrame C s t i).decoded = s.decoded + 1
    ∧ (acceptFrame C s t i).prevTime = t
    ∧ (acceptFrame C s t i).total = s.total := by
  unfold acceptFrame
  cases hb : (C.bufAdd s.buf t i).2 with
  | none => simp [hb]
  | some g => simp only [hb]; split <;> simp

theorem decodeStep_none {σ γ G : Type} (C : Collab σ γ G) (minInt : ℚ)
    (s : EngState σ γ) (i : ℕ) : decodeStep C minInt s (i, none) = s := rfl

theorem decodeStep_reject {σ γ G : Type} (C : Collab σ γ G) (minInt : ℚ)
    (s : EngState σ γ) (i : ℕ) (t : ℚ) (h : t - s.prevTime < minInt) :
    decodeStep C minInt s (i, some t) = { s with total := s.total + 1 } := by
  simp [decodeStep, h]

theorem decodeStep_accept {σ γ G : Type} (C : Collab σ γ G) (minInt : ℚ)
    (s : EngState σ γ) (i : ℕ) (t : ℚ) (h : ¬ t - s.prevTime < minInt) :
    decodeStep C minInt s (i, some t)
      = acceptFrame C { s with total := s.total + 1 } t i := by
  simp [decodeStep, h]

theorem decodeLoop_inv {σ γ G : Type} {C : Collab σ γ G} {minInt : ℚ}
    {P : EngState σ γ → Prop}
    (hstep : ∀ s i fr, P s → P (decodeStep C minInt s (i, fr))) :
    ∀ (l : List (Option ℚ)) (i : ℕ) (s : EngState σ γ), P s →
      P (VideoSampler.decodeLoop C minInt i s l) := by
  intro l
  induction l with
  | nil => exact fun i s h => h
  | cons fr rest ih =>
    exact fun i s h => ih (i + 1) _ (hstep s i fr h)

theorem segLoop_inv {σ γ G : Type} {C : Collab σ γ G} {minInt : ℚ}
    {P : SegState σ γ → Prop}
    (hstep : ∀ s i fr, P s → P (segStep C minInt s (i, fr))) :
    ∀ (l : List (Option ℚ)) (i : ℕ) (s : SegState σ γ), P s →
      P (SegmentSampler.decodeLoop C minInt i s l) := by
  intro l
  induction l with
  | nil => exact fun i s h => h
  | cons fr rest ih =>
    exact fun i s h => ih (i + 1) _ (hstep s i fr h)

theorem flushStep_core {σ γ G : Type} (C : Collab σ γ G) (s : EngState σ γ)
    (r : Option G) :
    (flushStep C s r).accepted = s.accepted
    ∧ (flushStep C s r).decoded = s.decoded
    ∧ (flushStep C s r).total = s.total
    ∧ (flushStep C s r).prevTime = s.prevTime
    ∧ (flushStep C s r).buf = s.buf := by
  unfold flushStep
  cases r with
  | none => simp
  | some g => simp only; split <;> simp

theorem flushFold_core {σ γ G : Type} (C : Collab σ γ G) :
    ∀ (l : List (Option G)) (s : EngState σ γ),
      (l.foldl (flushStep C) s).accepted = s.accepted
      ∧ (l.foldl (flushStep C) s).decoded = s.decoded
      ∧ (l.foldl (flushStep C) s).total = s.total
      ∧ (l.foldl (flushStep C) s).prevTime = s.prevTime := by
  intro l
  induction l with
  | nil => exact fun s => ⟨rfl, rfl, rfl, rfl⟩
  | cons r rest ih =>
    intro s
    have h1 := flushStep_core C s r
    have h2 := ih (flushStep C s r)
    simp only [List.foldl_cons]
    exact ⟨h2.1.trans h1.1, h2.2.1.trans h1.2.1, h2.2.2.1.trans h1.2.2.1,
      h2.2.2.2.trans h1.2.2.2.1⟩

theorem flush_buffer_core {σ γ G : Type} (C : Collab σ γ G) (s : EngState σ γ) :
    (flush_buffer C s).accepted = s.accepted
    ∧ (flush_buffer C s).decoded = s.decoded
    ∧ (flush_buffer C s).total = s.total
    ∧ (flush_buffer C s).prevTime = s.prevTime := by
  unfold flush_buffer
  have h := flushFold_core C (C.bufFlush s.buf) s
  simp only
  split <;>
    exact ⟨h.1, h.2.1, h.2.2.1, h.2.2.2⟩

theorem flush_buffer_out_last {σ γ G : Type} (C : Collab σ γ G)
    (s : EngState σ γ) :
    (flush_buffer C s).out.getLast? = some PROCESSING_DONE_ITERABLE := by
  unfold flush_buffer
  simp only
  split <;> exact getLast_append_singleton _ _

theorem advanceSeg_noop (t st en : ℚ) (pulled rem : List subtitle_line)
    (h : t ≤ en) : advanceSeg t st en pulled rem = (st, en, pulled, rem, false) := by
  rw [advanceSeg.eq_def]
  simp [h]

/-! ## Claim theorems -/

/-- **C6**: with `min_frame_interval_sec = 1.0` and decoded frame timestamps
`[0.0, 0.3, 1.1, 1.2, 2.5]`, the base engine submits to the buffer exactly
the frames with timestamps `[0.0, 1.1, 2.5]` (at decode indices 0, 2, 4;
0.3 and 1.2 are dropped by the interval filter), and the run ends with
`total = 5` and `decoded = 3`. -/
theorem C6_example_run :
    (VideoSampler.sample recCollab 1 [] ()
      [some 0, some (3/10), some (11/10), some (12/10), some (5/2)]).buf
        = [(0, 0), (11/10, 2), (5/2, 4)]
    ∧ (VideoSampler.sample recCollab 1 [] ()
      [some 0, some (3/10), some (11/10), some (12/10), some (5/2)]).total = 5
    ∧ (VideoSampler.sample recCollab 1 [] ()
      [some 0, some (3/10), some (11/10), some (12/10), some (5/2)]).decoded = 3 := by
  norm_num [VideoSampler.sample, VideoSampler.decodeLoop, decodeStep,
    acceptFrame, flush_buffer, flushStep, initState, recCollab]

/-- **C2** counterexample: with `min_frame_interval_sec = 20`, the first
decoded frame (timestamp 0) does NOT pass the interval filter
(`0 - (-10) = 10 < 20`): `decoded` stays 0 and nothing is submitted to the
buffer, refuting the claim for this value of `min_frame_interval_sec`. -/
theorem C2_counterexample :
    (VideoSampler.sample recCollab 20 [] () [some 0]).total = 1
    ∧ (VideoSampler.sample recCollab 20 [] () [some 0]).decoded = 0
    ∧ (VideoSampler.sample recCollab 20 [] () [some 0]).buf = [] := by
  norm_num [VideoSampler.sample, VideoSampler.decodeLoop, decodeStep,
    acceptFrame, flush_buffer, flushStep, initState, recCollab]

/-- **C1** counterexample: segment `[1000ms, 2000ms]`, i.e. `[1s, 2s]`, and a
frame with timestamp exactly `1` (the segment's start boundary): the frame is
skipped by the `ftime <= segment_boundary_start_sec` check — `total` stays 0
and nothing reaches the interval filter or the buffer, refuting the
claim that a boundary-start frame proceeds to the `total` increment. -/
theorem C1_counterexample :
    (SegmentSampler.run trivialCollab 1 () () ⟨1000, 2000⟩ [] [some 1]).eng.total = 0
    ∧ (SegmentSampler.run trivialCollab 1 () () ⟨1000, 2000⟩ [] [some 1]).eng.accepted = [] := by
  norm_num [SegmentSampler.run, SegmentSampler.decodeLoop, segStep, advanceSeg.eq_def,
    flush_buffer, flushStep, initState, trivialCollab]

/-- Evaluation of one segment-engine step when the frame does not exceed the
current segment's end: the advance loop is a no-op, and the frame is skipped
when at-or-before the segment's start, otherwise goes through the interval
filter. -/
theorem segStep_eval {σ γ G : Type} (C : Collab σ γ G) (minInt : ℚ)
    (e : EngState σ γ) (st en : ℚ) (rem pulled : List subtitle_line)
    (t : ℚ) (idx : ℕ) (hle : t ≤ en) :
    segStep C minInt ⟨e, st, en, rem, pulled, false⟩ (idx, some t)
      = if t ≤ st then ⟨e, st, en, rem, pulled, false⟩
        else if t - e.prevTime < minInt
          then ⟨{ e with total := e.total + 1 }, st, en, rem, pulled, false⟩
          else ⟨acceptFrame C { e with total := e.total + 1 } t idx,
                st, en, rem, pulled, false⟩ := by
  simp [segStep, advanceSeg_noop t st en pulled rem hle]

/-- **C1** (amended): in the segment-aware engine, a frame whose timestamp is
exactly the current segment's end boundary is treated as inside (the tracker
pulls no further segment and does not stop for it, and — provided the frame
is strictly past the segment's start — it proceeds to the `total` increment
and the interval filter); a frame whose timestamp is exactly the segment's
start boundary is NOT inside: the `ftime <= segment_boundary_start_sec` skip
rejects it, leaving the whole state untouched. -/
theorem C1_segment_boundaries {σ γ G : Type} (C : Collab σ γ G) (minInt : ℚ)
    (s : SegState σ γ) (t : ℚ) (idx : ℕ) (hstop : s.stop = false) :
    (t = s.segEnd → s.segStart < t →
      (segStep C minInt s (idx, some t)).pulled = s.pulled
      ∧ (segStep C minInt s (idx, some t)).stop = false
      ∧ (segStep C minInt s (idx, some t)).eng.total = s.eng.total + 1)
    ∧ (t ≤ s.segEnd → t ≤ s.segStart → segStep C minInt s (idx, some t) = s) := by
  obtain ⟨e, st, en, rem, pulled, stop⟩ := s
  simp only at hstop
  subst hstop
  constructor
  · intro hEnd hStart
    simp only at hEnd hStart
    have hle : t ≤ en := le_of_eq hEnd
    have hns : ¬ t ≤ st := not_le.mpr hStart
    rw [segStep_eval C minInt e st en rem pulled t idx hle, if_neg hns]
    split
    · exact ⟨rfl, rfl, rfl⟩
    · exact ⟨rfl, rfl, (acceptFrame_core C _ t idx).2.2.2⟩
  · intro hle hst
    simp only at hle hst
    rw [segStep_eval C minInt e st en rem pulled t idx hle, if_pos hst]

/-- **C9** counterexample: an empty segment sequence before any frame is
decoded is NOT handled: the unguarded `next(self.segment_generator)` raises
(`StopIteration`, a `RuntimeError` under PEP 479) before the video is even
opened — no flush happens and no terminal sentinel batch is emitted. -/
theorem C9_counterexample :
    SegmentSampler.sample trivialCollab 1 () () [] [some 0] = none := rfl

/-- **C9** (amended): once the initial segment has been obtained, exhaustion
of the segment sequence is never an error: every run of the segment-aware
engine — including runs where the per-frame advance loop exhausts the
sequence and sets `absolute_stop` — proceeds to the flush phase and ends
with the terminal sentinel batch as its last yield.  An initially empty
segment sequence, however, raises before decoding and yields nothing. -/
theorem C9_segment_exhaustion {σ γ G : Type} (C : Collab σ γ G) (minInt : ℚ)
    (buf0 : σ) (gst0 : γ) (sg : subtitle_line) (rest : List subtitle_line)
    (frames : List (Option ℚ)) :
    (SegmentSampler.run C minInt buf0 gst0 sg rest frames).eng.out.getLast?
        = some PROCESSING_DONE_ITERABLE
    ∧ SegmentSampler.sample C minInt buf0 gst0 [] frames
        = (none : Option (SegState σ γ)) := by
  refine ⟨?_, rfl⟩
  simp only [SegmentSampler.run]
  exact flush_buffer_out_last C _

theorem decodeLoop_cons {σ γ G : Type} (C : Collab σ γ G) (minInt : ℚ)
    (i : ℕ) (s : EngState σ γ) (fr : Option ℚ) (rest : List (Option ℚ)) :
    VideoSampler.decodeLoop C minInt i s (fr :: rest)
      = VideoSampler.decodeLoop C minInt (i + 1) (decodeStep C minInt s (i, fr)) rest := rfl

theorem decodeLoop_skip_unreadable {σ γ G : Type} (C : Collab σ γ G) (minInt : ℚ) :
    ∀ (pre l : List (Option ℚ)) (i : ℕ) (s : EngState σ γ),
      (∀ x ∈ pre, x = none) →
      VideoSampler.decodeLoop C minInt i s (pre ++ l)
        = VideoSampler.decodeLoop C minInt (i + pre.length) s l := by
  intro pre
  induction pre with
  | nil => intro l i s _; simp
  | cons x xs ih =>
    intro l i s h
    have hx : x = none := h x (by simp)
    subst hx
    have hn : i + 1 + xs.length = i + (none :: xs : List (Option ℚ)).length := by
      simp only [List.length_cons]
      omega
    rw [List.cons_append, decodeLoop_cons, decodeStep_none,
      ih l (i + 1) s (fun y hy => h y (List.mem_cons_of_mem _ hy)), hn]

theorem decodeStep_accepted {σ γ G : Type} (C : Collab σ γ G) (minInt : ℚ)
    (s : EngState σ γ) (i : ℕ) (fr : Option ℚ) :
    (decodeStep C minInt s (i, fr)).accepted = s.accepted
    ∨ ∃ t, (decodeStep C minInt s (i, fr)).accepted = s.accepted ++ [t] := by
  cases fr with
  | none => exact Or.inl rfl
  | some t =>
    by_cases h : t - s.prevTime < minInt
    · rw [decodeStep_reject C minInt s i t h]; exact Or.inl rfl
    · rw [decodeStep_accept C minInt s i t h]
      exact Or.inr ⟨t, (acceptFrame_core C _ t i).1⟩

theorem decodeLoop_accepted_extend {σ γ G : Type} (C : Collab σ γ G) (minInt : ℚ) :
    ∀ (l : List (Option ℚ)) (i : ℕ) (s : EngState σ γ),
      ∃ l2, (VideoSampler.decodeLoop C minInt i s l).accepted = s.accepted ++ l2 := by
  intro l
  induction l with
  | nil => intro i s; exact ⟨[], by simp [VideoSampler.decodeLoop]⟩
  | cons fr rest ih =>
    intro i s
    obtain ⟨l2, h2⟩ := ih (i + 1) (decodeStep C minInt s (i, fr))
    rcases decodeStep_accepted C minInt s i fr with h1 | ⟨t, h1⟩
    · exact ⟨l2, by rw [decodeLoop_cons, h2, h1]⟩
    · refine ⟨t :: l2, ?_⟩
      rw [decodeLoop_cons, h2, h1, List.append_assoc]
      rfl

theorem decodeStep_decoded_le {σ γ G : Type} (C : Collab σ γ G) (minInt : ℚ)
    (s : EngState σ γ) (i : ℕ) (fr : Option ℚ) :
    s.decoded ≤ (decodeStep C minInt s (i, fr)).decoded := by
  cases fr with
  | none => exact le_refl _
  | some t =>
    by_cases h : t - s.prevTime < minInt
    · rw [decodeStep_reject C minInt s i t h]
    · rw [decodeStep_accept C minInt s i t h, (acceptFrame_core C _ t i).2.1]
      exact Nat.le_succ _

theorem decodeLoop_decoded_le {σ γ G : Type} (C : Collab σ γ G) (minInt : ℚ) :
    ∀ (l : List (Option ℚ)) (i : ℕ) (s : EngState σ γ),
      s.decoded ≤ (VideoSampler.decodeLoop C minInt i s l).decoded := by
  intro l
  induction l with
  | nil => intro i s; exact le_refl _
  | cons fr rest ih =>
    intro i s
    exact le_trans (decodeStep_decoded_le C minInt s i fr) (ih (i + 1) _)

/-- **C2** (amended): the first decoded frame with a readable timestamp
`t0` passes the minimum-interval filter — incrementing `decoded` and being
submitted to the buffer — whenever `min_frame_interval_sec ≤ t0 + 10`
(the sentinel `prev_time = -10` makes its `time_diff` equal `t0 + 10`); in
particular for every `min_frame_interval_sec ≤ 10` when timestamps are
non-negative, but NOT for arbitrarily large `min_frame_interval_sec`. -/
theorem C2_first_frame {σ γ G : Type} (C : Collab σ γ G) (minInt : ℚ)
    (buf0 : σ) (gst0 : γ) (pre rest : List (Option ℚ)) (t0 : ℚ)
    (hpre : ∀ x ∈ pre, x = none) (h : minInt ≤ t0 + 10) :
    (VideoSampler.sample C minInt buf0 gst0 (pre ++ some t0 :: rest)).accepted.head?
        = some t0
    ∧ 1 ≤ (VideoSampler.sample C minInt buf0 gst0 (pre ++ some t0 :: rest)).decoded := by
  have hrej : ¬ (t0 - (initState buf0 gst0 : EngState σ γ).prevTime < minInt) := by
    show ¬ (t0 - (-10 : ℚ) < minInt)
    exact not_lt.mpr (by linarith)
  have hloop : VideoSampler.decodeLoop C minInt 0 (initState buf0 gst0)
        (pre ++ some t0 :: rest)
      = VideoSampler.decodeLoop C minInt (0 + pre.length + 1)
          (acceptFrame C
            { initState buf0 gst0 with total := (initState buf0 gst0).total + 1 }
            t0 (0 + pre.length)) rest := by
    rw [decodeLoop_skip_unreadable C minInt pre (some t0 :: rest) 0 (initState buf0 gst0) hpre,
      decodeLoop_cons, decodeStep_accept C minInt _ _ t0 hrej]
  have hacc := acceptFrame_core C
    ({ initState buf0 gst0 with total := (initState buf0 gst0).total + 1 }) t0
    (0 + pre.length)
  obtain ⟨l2, h2⟩ := decodeLoop_accepted_extend C minInt rest (0 + pre.length + 1)
    (acceptFrame C { initState buf0 gst0 with total := (initState buf0 gst0).total + 1 }
      t0 (0 + pre.length))
  constructor
  · have ha : (VideoSampler.sample C minInt buf0 gst0 (pre ++ some t0 :: rest)).accepted
        = (VideoSampler.decodeLoop C minInt 0 (initState buf0 gst0)
            (pre ++ some t0 :: rest)).accepted :=
      (flush_buffer_core C _).1
    rw [ha, hloop, h2, hacc.1]
    rfl
  · have hd : (VideoSampler.sample C minInt buf0 gst0 (pre ++ some t0 :: rest)).decoded
        = (VideoSampler.decodeLoop C minInt 0 (initState buf0 gst0)
            (pre ++ some t0 :: rest)).decoded :=
      (flush_buffer_core C _).2.1
    rw [hd, hloop]
    have h1 : 1 ≤ (acceptFrame C
        { initState buf0 gst0 with total := (initState buf0 gst0).total + 1 }
        t0 (0 + pre.length)).decoded := by
      rw [hacc.2.1]
      exact Nat.le_add_left 1 _
    exact le_trans h1 (decodeLoop_decoded_le C minInt rest _ _)

/-- Witness for C2 (amended) at `min_frame_interval_sec = 1`, one unreadable
frame followed by a readable frame at `t = 0`. -/
theorem C2_first_frame_witness :
    (VideoSampler.sample trivialCollab 1 () () ([none] ++ some 0 :: [])).accepted.head?
        = some 0
    ∧ 1 ≤ (VideoSampler.sample trivialCollab 1 () () ([none] ++ some 0 :: [])).decoded :=
  C2_first_frame trivialCollab 1 () () [none] [] 0 (by simp) (by norm_num)

theorem decodeStep_chain {σ γ G : Type} (C : Collab σ γ G) (minInt : ℚ)
    (s : EngState σ γ) (i : ℕ) (fr : Option ℚ)
    (h : List.Chain' (fun a b => minInt ≤ b - a) s.accepted
      ∧ ∀ x ∈ s.accepted.getLast?, x = s.prevTime) :
    List.Chain' (fun a b => minInt ≤ b - a) (decodeStep C minInt s (i, fr)).accepted
    ∧ ∀ x ∈ (decodeStep C minInt s (i, fr)).accepted.getLast?,
        x = (decodeStep C minInt s (i, fr)).prevTime := by
  cases fr with
  | none => exact h
  | some t =>
    by_cases hlt : t - s.prevTime < minInt
    · rw [decodeStep_reject C minInt s i t hlt]
      exact h
    · rw [decodeStep_accept C minInt s i t hlt]
      have hacc := acceptFrame_core C { s with total := s.total + 1 } t i
      rw [hacc.1, hacc.2.2.1]
      constructor
      · rw [List.chain'_append]
        refine ⟨h.1, List.chain'_singleton t, ?_⟩
        intro x hx y hy
        simp only [List.head?_cons, Option.mem_def, Option.some.injEq] at hy
        subst hy
        rw [h.2 x hx]
        exact not_lt.mp hlt
      · intro x hx
        rw [getLast_append_singleton] at hx
        simp only [Option.mem_def, Option.some.injEq] at hx
        exact hx.symm

/-- **C3**: for every run of the base engine on a monotonically
non-decreasing input timestamp sequence, the timestamps of the frames
accepted by the interval filter (submitted to the buffer) satisfy
`t(i+1) - t(i) >= min_frame_interval_sec` for every consecutive accepted
pair; and a frame rejected by the filter updates neither `prev_time` nor the
`decoded` counter. -/
theorem C3_interval_monotonicity {σ γ G : Type} (C : Collab σ γ G) (minInt : ℚ)
    (buf0 : σ) (gst0 : γ) (frames : List (Option ℚ))
    (hmono : List.Chain' (· ≤ ·) (frames.filterMap id)) :
    List.Chain' (fun a b => minInt ≤ b - a)
      (VideoSampler.sample C minInt buf0 gst0 frames).accepted
    ∧ ∀ (s : EngState σ γ) (i : ℕ) (t : ℚ), t - s.prevTime < minInt →
        (decodeStep C minInt s (i, some t)).prevTime = s.prevTime
        ∧ (decodeStep C minInt s (i, some t)).decoded = s.decoded := by
  constructor
  · have key := decodeLoop_inv
      (P := fun s : EngState σ γ =>
        List.Chain' (fun a b => minInt ≤ b - a) s.accepted
        ∧ ∀ x ∈ s.accepted.getLast?, x = s.prevTime)
      (fun s i fr hs => decodeStep_chain C minInt s i fr hs)
      frames 0 (initState buf0 gst0) (by simp [initState])
    have ha : (VideoSampler.sample C minInt buf0 gst0 frames).accepted
        = (VideoSampler.decodeLoop C minInt 0 (initState buf0 gst0) frames).accepted :=
      (flush_buffer_core C _).1
    rw [ha]
    exact key.1
  · intro s i t hlt
    rw [decodeStep_reject C minInt s i t hlt]
    exact ⟨rfl, rfl⟩

/-- Witness for C3 at `min_frame_interval_sec = 1`, timestamps `[0, 2]`. -/
theorem C3_interval_monotonicity_witness :
    List.Chain' (fun a b => (1:ℚ) ≤ b - a)
      (VideoSampler.sample trivialCollab 1 () () [some 0, some 2]).accepted
    ∧ ∀ (s : EngState Unit Unit) (i : ℕ) (t : ℚ), t - s.prevTime < 1 →
        (decodeStep trivialCollab 1 s (i, some t)).prevTime = s.prevTime
        ∧ (decodeStep trivialCollab 1 s (i, some t)).decoded = s.decoded :=
  C3_interval_monotonicity trivialCollab 1 () () [some 0, some 2]
    (by norm_num [List.filterMap_cons, List.chain'_cons])

theorem flush_buffer_gst {σ γ G : Type} (C : Collab σ γ G) (s : EngState σ γ) :
    (flush_buffer C s).gst
      = (C.gateFlush ((C.bufFlush s.buf).foldl (flushStep C) s).gst).1 := by
  unfold flush_buffer
  simp only
  split <;> rfl

/-- **C8**: calling `sample` twice sequentially on the same engine instance
yields, for the second call, exactly the run of a freshly constructed
engine: `sample` resets the stats and clears the buffer at its start, and —
under the gate contract that `flush` releases everything the gate was
holding, returning it to its initial state — the gate state left by the
first run equals the fresh gate state, so the whole second run coincides
with the fresh run (in particular its final stats). -/
theorem C8_idempotent_reset {σ γ G : Type} (C : Collab σ γ G) (minInt : ℚ)
    (buf0 : σ) (gst0 : γ) (l1 l2 : List (Option ℚ))
    (hflush : ∀ g, (C.gateFlush g).1 = gst0) :
    VideoSampler.sample C minInt buf0
        (VideoSampler.sample C minInt buf0 gst0 l1).gst l2
      = VideoSampler.sample C minInt buf0 gst0 l2 := by
  have hg : (VideoSampler.sample C minInt buf0 gst0 l1).gst = gst0 := by
    show (flush_buffer C _).gst = gst0
    rw [flush_buffer_gst]
    exact hflush _
  rw [hg]

/-- Witness for C8: two sequential runs with the trivial collaborators. -/
theorem C8_idempotent_reset_witness :
    VideoSampler.sample trivialCollab 1 ()
        ((VideoSampler.sample trivialCollab 1 () () [some 0]).gst) [some 1]
      = VideoSampler.sample trivialCollab 1 () () [some 1] :=
  C8_idempotent_reset trivialCollab 1 () () [some 0] [some 1] (fun _ => rfl)

theorem flushStep_produced {σ γ G : Type} (C : Collab σ γ G) (s : EngState σ γ)
    (r : Option G) :
    (flushStep C s r).produced = s.produced + (if r.isSome then 1 else 0) := by
  cases r with
  | none => simp [flushStep]
  | some g => simp only [flushStep, Option.isSome_some, if_true]; split <;> simp

theorem flushStep_gated_sum {σ γ G : Type} (C : Collab σ γ G) (s : EngState σ γ)
    (r : Option G) (h : s.gated = s.gateNs.sum) :
    (flushStep C s r).gated = (flushStep C s r).gateNs.sum := by
  cases r with
  | none => exact h
  | some g => simp only [flushStep]; split <;> simp [h, List.sum_append]

theorem flushFold_produced {σ γ G : Type} (C : Collab σ γ G) :
    ∀ (l : List (Option G)) (s : EngState σ γ),
      (l.foldl (flushStep C) s).produced
        = s.produced + l.countP (fun o => o.isSome) := by
  intro l
  induction l with
  | nil => intro s; simp
  | cons r rest ih =>
    intro s
    rw [List.foldl_cons, ih, flushStep_produced, List.countP_cons]
    cases r <;> simp <;> omega

theorem flushFold_gated_sum {σ γ G : Type} (C : Collab σ γ G) :
    ∀ (l : List (Option G)) (s : EngState σ γ), s.gated = s.gateNs.sum →
      (l.foldl (flushStep C) s).gated = (l.foldl (flushStep C) s).gateNs.sum := by
  intro l
  induction l with
  | nil => intro s h; exact h
  | cons r rest ih => intro s h; exact ih _ (flushStep_gated_sum C s r h)

theorem flush_buffer_produced {σ γ G : Type} (C : Collab σ γ G) (s : EngState σ γ) :
    (flush_buffer C s).produced
      = s.produced + (C.bufFlush s.buf).countP (fun o => o.isSome) := by
  unfold flush_buffer
  simp only
  split <;> exact flushFold_produced C _ s

theorem flush_buffer_gated_sum {σ γ G : Type} (C : Collab σ γ G) (s : EngState σ γ)
    (h : s.gated = s.gateNs.sum) :
    (flush_buffer C s).gated = (flush_buffer C s).gateNs.sum := by
  unfold flush_buffer
  simp only
  have h1 := flushFold_gated_sum C (C.bufFlush s.buf) s h
  split <;> simp [List.sum_append, h1]

theorem acceptFrame_stats {σ γ G : Type} (C : Collab σ γ G) (size : σ → ℕ)
    (hAddNone : ∀ b t i, (C.bufAdd b t i).2 = none →
      size (C.bufAdd b t i).1 ≤ size b + 1)
    (hAddSome : ∀ b t i g, (C.bufAdd b t i).2 = some g →
      size (C.bufAdd b t i).1 ≤ size b)
    (s : EngState σ γ) (t : ℚ) (i : ℕ) :
    (acceptFrame C s t i).total = s.total
    ∧ (acceptFrame C s t i).decoded = s.decoded + 1
    ∧ (acceptFrame C s t i).produced + size (acceptFrame C s t i).buf
        ≤ s.produced + size s.buf + 1
    ∧ (s.gated = s.gateNs.sum →
        (acceptFrame C s t i).gated = (acceptFrame C s t i).gateNs.sum) := by
  unfold acceptFrame
  cases hb : (C.bufAdd s.buf t i).2 with
  | none =>
    simp only [hb]
    have hs := hAddNone s.buf t i hb
    refine ⟨by trivial, by trivial, ?_, fun h => h⟩
    show s.produced + size (C.bufAdd s.buf t i).1 ≤ s.produced + size s.buf + 1
    omega
  | some g =>
    simp only [hb]
    have hs := hAddSome s.buf t i g hb
    split
    · refine ⟨by trivial, by trivial, ?_, fun h => by simp [h, List.sum_append]⟩
      show s.produced + 1 + size (C.bufAdd s.buf t i).1 ≤ s.produced + size s.buf + 1
      omega
    · refine ⟨by trivial, by trivial, ?_, fun h => by simp [h, List.sum_append]⟩
      show s.produced + 1 + size (C.bufAdd s.buf t i).1 ≤ s.produced + size s.buf + 1
      omega

theorem decodeStep_stats {σ γ G : Type} (C : Collab σ γ G) (minInt : ℚ)
    (size : σ → ℕ)
    (hAddNone : ∀ b t i, (C.bufAdd b t i).2 = none →
      size (C.bufAdd b t i).1 ≤ size b + 1)
    (hAddSome : ∀ b t i g, (C.bufAdd b t i).2 = some g →
      size (C.bufAdd b t i).1 ≤ size b)
    (s : EngState σ γ) (i : ℕ) (fr : Option ℚ)
    (h : s.decoded ≤ s.total ∧ s.produced + size s.buf ≤ s.decoded
      ∧ s.gated = s.gateNs.sum) :
    (decodeStep C minInt s (i, fr)).decoded ≤ (decodeStep C minInt s (i, fr)).total
    ∧ (decodeStep C minInt s (i, fr)).produced
        + size (decodeStep C minInt s (i, fr)).buf
        ≤ (decodeStep C minInt s (i, fr)).decoded
    ∧ (decodeStep C minInt s (i, fr)).gated
        = (decodeStep C minInt s (i, fr)).gateNs.sum := by
  cases fr with
  | none => exact h
  | some t =>
    by_cases hlt : t - s.prevTime < minInt
    · rw [decodeStep_reject C minInt s i t hlt]
      exact ⟨Nat.le_succ_of_le h.1, h.2.1, h.2.2⟩
    · rw [decodeStep_accept C minInt s i t hlt]
      have ha := acceptFrame_stats C size hAddNone hAddSome
        { s with total := s.total + 1 } t i
      have ha1 : (acceptFrame C { s with total := s.total + 1 } t i).total
          = s.total + 1 := ha.1
      have ha2 : (acceptFrame C { s with total := s.total + 1 } t i).decoded
          = s.decoded + 1 := ha.2.1
      have ha3 : (acceptFrame C { s with total := s.total + 1 } t i).produced
          + size (acceptFrame C { s with total := s.total + 1 } t i).buf
          ≤ s.produced + size s.buf + 1 := ha.2.2.1
      have ha4 : (acceptFrame C { s with total := s.total + 1 } t i).gated
          = (acceptFrame C { s with total := s.total + 1 } t i).gateNs.sum :=
        ha.2.2.2 h.2.2
      have h1 := h.1
      have h2 := h.2.1
      exact ⟨by omega, by omega, ha4⟩

/-- **C5**: for every completed run of the base engine's `sample` — under
the frame-buffer contract that a cleared buffer holds no frames, that `add`
grows the held-frame count by at most one (and a truthy completed group
consumes at least the frame just added), and that `final_flush` yields at
most as many truthy groups as frames held — the final statistics satisfy
`decoded <= total` and `produced <= decoded`, and the final `gated` equals
the sum of the discard counts `N` over every gate invocation of the run
(decode-time invocations, final-flush invocations, and the gate's own
`flush`, all recorded in order in `gateNs`). -/
theorem C5_stats_conservation {σ γ G : Type} (C : Collab σ γ G) (minInt : ℚ)
    (buf0 : σ) (gst0 : γ) (frames : List (Option ℚ)) (size : σ → ℕ)
    (hsize0 : size buf0 = 0)
    (hAddNone : ∀ b t i, (C.bufAdd b t i).2 = none →
      size (C.bufAdd b t i).1 ≤ size b + 1)
    (hAddSome : ∀ b t i g, (C.bufAdd b t i).2 = some g →
      size (C.bufAdd b t i).1 ≤ size b)
    (hFlush : ∀ b, (C.bufFlush b).countP (fun o => o.isSome) ≤ size b) :
    (VideoSampler.sample C minInt buf0 gst0 frames).decoded
        ≤ (VideoSampler.sample C minInt buf0 gst0 frames).total
    ∧ (VideoSampler.sample C minInt buf0 gst0 frames).produced
        ≤ (VideoSampler.sample C minInt buf0 gst0 frames).decoded
    ∧ (VideoSampler.sample C minInt buf0 gst0 frames).gated
        = (VideoSampler.sample C minInt buf0 gst0 frames).gateNs.sum := by
  have hinv := decodeLoop_inv
    (P := fun s : EngState σ γ =>
      s.decoded ≤ s.total ∧ s.produced + size s.buf ≤ s.decoded
      ∧ s.gated = s.gateNs.sum)
    (fun s i fr hs => decodeStep_stats C minInt size hAddNone hAddSome s i fr hs)
    frames 0 (initState buf0 gst0)
    (⟨Nat.le_refl 0, by simp [initState, hsize0], rfl⟩)
  have hcore := flush_buffer_core C
    (VideoSampler.decodeLoop C minInt 0 (initState buf0 gst0) frames)
  refine ⟨?_, ?_, ?_⟩
  · show (flush_buffer C
        (VideoSampler.decodeLoop C minInt 0 (initState buf0 gst0) frames)).decoded
      ≤ (flush_buffer C
        (VideoSampler.decodeLoop C minInt 0 (initState buf0 gst0) frames)).total
    rw [hcore.2.1, hcore.2.2.1]
    exact hinv.1
  · show (flush_buffer C
        (VideoSampler.decodeLoop C minInt 0 (initState buf0 gst0) frames)).produced
      ≤ (flush_buffer C
        (VideoSampler.decodeLoop C minInt 0 (initState buf0 gst0) frames)).decoded
    rw [hcore.2.1, flush_buffer_produced]
    have hf := hFlush
      (VideoSampler.decodeLoop C minInt 0 (initState buf0 gst0) frames).buf
    have hp := hinv.2.1
    omega
  · exact flush_buffer_gated_sum C _ hinv.2.2

/-- Witness for C5 with the trivial collaborators (constant-zero size). -/
theorem C5_stats_conservation_witness :
    (VideoSampler.sample trivialCollab 1 () () [some 0, some 2]).decoded
        ≤ (VideoSampler.sample trivialCollab 1 () () [some 0, some 2]).total
    ∧ (VideoSampler.sample trivialCollab 1 () () [some 0, some 2]).produced
        ≤ (VideoSampler.sample trivialCollab 1 () () [some 0, some 2]).decoded
    ∧ (VideoSampler.sample trivialCollab 1 () () [some 0, some 2]).gated
        = (VideoSampler.sample trivialCollab 1 () () [some 0, some 2]).gateNs.sum :=
  C5_stats_conservation trivialCollab 1 () () [some 0, some 2] (fun _ => 0) rfl
    (fun _ _ _ _ => Nat.zero_le _)
    (fun b t i g hg => by simp [trivialCollab] at hg)
    (fun _ => Nat.le_refl 0)

theorem acceptFrame_out {σ γ G : Type} (C : Collab σ γ G)
    (hGate : ∀ g x, ∀ f ∈ (C.gate g x).2.frames, f.isEnd = false)
    (s : EngState σ γ) (t : ℚ) (i : ℕ)
    (h : ∀ b ∈ s.out, ∀ f ∈ b, f.isEnd = false) :
    ∀ b ∈ (acceptFrame C s t i).out, ∀ f ∈ b, f.isEnd = false := by
  unfold acceptFrame
  cases hb : (C.bufAdd s.buf t i).2 with
  | none => simp only [hb]; exact h
  | some g =>
    simp only [hb]
    split
    · exact h
    · show ∀ b ∈ s.out ++ [(C.gate s.gst g).2.frames], ∀ f ∈ b, f.isEnd = false
      intro b hb2 f hf
      rcases List.mem_append.mp hb2 with h1 | h2
      · exact h b h1 f hf
      · have hbq : b = (C.gate s.gst g).2.frames := by simpa using h2
        subst hbq
        exact hGate s.gst g f hf

theorem decodeStep_out {σ γ G : Type} (C : Collab σ γ G) (minInt : ℚ)
    (hGate : ∀ g x, ∀ f ∈ (C.gate g x).2.frames, f.isEnd = false)
    (s : EngState σ γ) (i : ℕ) (fr : Option ℚ)
    (h : ∀ b ∈ s.out, ∀ f ∈ b, f.isEnd = false) :
    ∀ b ∈ (decodeStep C minInt s (i, fr)).out, ∀ f ∈ b, f.isEnd = false := by
  cases fr with
  | none => exact h
  | some t =>
    by_cases hlt : t - s.prevTime < minInt
    · rw [decodeStep_reject C minInt s i t hlt]; exact h
    · rw [decodeStep_accept C minInt s i t hlt]
      exact acceptFrame_out C hGate _ t i h

theorem decodeLoop_out {σ γ G : Type} (C : Collab σ γ G) (minInt : ℚ)
    (hGate : ∀ g x, ∀ f ∈ (C.gate g x).2.frames, f.isEnd = false) :
    ∀ (l : List (Option ℚ)) (i : ℕ) (s : EngState σ γ),
      (∀ b ∈ s.out, ∀ f ∈ b, f.isEnd = false) →
      ∀ b ∈ (VideoSampler.decodeLoop C minInt i s l).out, ∀ f ∈ b, f.isEnd = false :=
  decodeLoop_inv (fun s i fr hs => decodeStep_out C minInt hGate s i fr hs)

theorem flushStep_out {σ γ G : Type} (C : Collab σ γ G)
    (hGate : ∀ g x, ∀ f ∈ (C.gate g x).2.frames, f.isEnd = false)
    (s : EngState σ γ) (r : Option G)
    (h : ∀ b ∈ s.out, ∀ f ∈ b, f.isEnd = false) :
    ∀ b ∈ (flushStep C s r).out, ∀ f ∈ b, f.isEnd = false := by
  cases r with
  | none => exact h
  | some g =>
    simp only [flushStep]
    split
    · exact h
    · show ∀ b ∈ s.out ++ [(C.gate s.gst g).2.frames], ∀ f ∈ b, f.isEnd = false
      intro b hb2 f hf
      rcases List.mem_append.mp hb2 with h1 | h2
      · exact h b h1 f hf
      · have hbq : b = (C.gate s.gst g).2.frames := by simpa using h2
        subst hbq
        exact hGate s.gst g f hf

theorem flushFold_out {σ γ G : Type} (C : Collab σ γ G)
    (hGate : ∀ g x, ∀ f ∈ (C.gate g x).2.frames, f.isEnd = false) :
    ∀ (l : List (Option G)) (s : EngState σ γ),
      (∀ b ∈ s.out, ∀ f ∈ b, f.isEnd = false) →
      ∀ b ∈ (l.foldl (flushStep C) s).out, ∀ f ∈ b, f.isEnd = false := by
  intro l
  induction l with
  | nil => exact fun s h => h
  | cons r rest ih =>
    exact fun s h => ih (flushStep C s r) (flushStep_out C hGate s r h)

theorem flush_buffer_out {σ γ G : Type} (C : Collab σ γ G)
    (hGate : ∀ g x, ∀ f ∈ (C.gate g x).2.frames, f.isEnd = false)
    (hGateFlush : ∀ g, ∀ f ∈ (C.gateFlush g).2.frames, f.isEnd = false)
    (s : EngState σ γ) (h : ∀ b ∈ s.out, ∀ f ∈ b, f.isEnd = false) :
    ∃ l, (flush_buffer C s).out = l ++ [PROCESSING_DONE_ITERABLE]
      ∧ ∀ b ∈ l, ∀ f ∈ b, f.isEnd = false := by
  unfold flush_buffer
  simp only
  have h1 := flushFold_out C hGate (C.bufFlush s.buf) s h
  split
  · exact ⟨_, rfl, h1⟩
  · refine ⟨_, rfl, ?_⟩
    intro b hb f hf
    rcases List.mem_append.mp hb with hx | hy
    · exact h1 b hx f hf
    · have hbq : b = (C.gateFlush
          ((C.bufFlush s.buf).foldl (flushStep C) s).gst).2.frames := by
        simpa using hy
      subst hbq
      exact hGateFlush _ f hf

theorem countP_end_batches (l : List (List FrameObject))
    (h : ∀ b ∈ l, ∀ f ∈ b, f.isEnd = false) :
    (l ++ [PROCESSING_DONE_ITERABLE]).countP
      (fun b => b.any (fun f => f.isEnd)) = 1 := by
  rw [List.countP_append]
  have h0 : l.countP (fun b => b.any (fun f => f.isEnd)) = 0 := by
    rw [List.countP_eq_zero]
    intro b hb hany
    rcases List.any_eq_true.mp hany with ⟨f, hf, hend⟩
    rw [h b hb f hf] at hend
    simp at hend
  rw [h0]
  simp [PROCESSING_DONE_ITERABLE, List.countP_cons]

/-- **C4**: for every input processed through the Worker's producer path —
including a zero-length video (`frames = []`) and an unreadable/unopenable
video (a recognised av error, `avErr = true`, possibly after a decoded
prefix) — exactly one terminal sentinel batch is pushed onto the queue, and
it is the last batch pushed.  (The gate collaborator, per the FrameObject
lifecycle, never emits end-marked objects.) -/
theorem C4_terminal_sentinel {σ γ G : Type} (C : Collab σ γ G) (minInt : ℚ)
    (buf0 : σ) (gst0 : γ) (frames : List (Option ℚ)) (avErr : Bool)
    (hGate : ∀ g x, ∀ f ∈ (C.gate g x).2.frames, f.isEnd = false)
    (hGateFlush : ∀ g, ∀ f ∈ (C.gateFlush g).2.frames, f.isEnd = false) :
    (VideoSampler.write_queue C minInt buf0 gst0 frames avErr).getLast?
        = some PROCESSING_DONE_ITERABLE
    ∧ (VideoSampler.write_queue C minInt buf0 gst0 frames avErr).countP
        (fun b => b.any (fun f => f.isEnd)) = 1 := by
  have hdec : ∀ b ∈ (VideoSampler.decodeLoop C minInt 0
        (initState buf0 gst0) frames).out, ∀ f ∈ b, f.isEnd = false :=
    decodeLoop_out C minInt hGate frames 0 (initState buf0 gst0)
      (by simp [initState])
  cases avErr with
  | true =>
    show ((VideoSampler.decodeLoop C minInt 0 (initState buf0 gst0) frames).out
        ++ [PROCESSING_DONE_ITERABLE]).getLast? = some PROCESSING_DONE_ITERABLE
      ∧ ((VideoSampler.decodeLoop C minInt 0 (initState buf0 gst0) frames).out
        ++ [PROCESSING_DONE_ITERABLE]).countP (fun b => b.any (fun f => f.isEnd)) = 1
    exact ⟨getLast_append_singleton _ _, countP_end_batches _ hdec⟩
  | false =>
    obtain ⟨l, hl, hfree⟩ := flush_buffer_out C hGate hGateFlush
      (VideoSampler.decodeLoop C minInt 0 (initState buf0 gst0) frames) hdec
    show (flush_buffer C (VideoSampler.decodeLoop C minInt 0
          (initState buf0 gst0) frames)).out.getLast?
        = some PROCESSING_DONE_ITERABLE
      ∧ (flush_buffer C (VideoSampler.decodeLoop C minInt 0
          (initState buf0 gst0) frames)).out.countP
          (fun b => b.any (fun f => f.isEnd)) = 1
    rw [hl]
    exact ⟨getLast_append_singleton _ _, countP_end_batches _ hfree⟩

/-- Witness for C4 with the trivial collaborators, one decoded frame, no
error. -/
theorem C4_terminal_sentinel_witness :
    (VideoSampler.write_queue trivialCollab 1 () () [some 0] false).getLast?
        = some PROCESSING_DONE_ITERABLE
    ∧ (VideoSampler.write_queue trivialCollab 1 () () [some 0] false).countP
        (fun b => b.any (fun f => f.isEnd)) = 1 :=
  C4_terminal_sentinel trivialCollab 1 () () [some 0] false
    (fun g x f hf => by simp [trivialCollab] at hf)
    (fun g f hf => by simp [trivialCollab] at hf)

theorem advanceSeg_spec (t : ℚ) :
    ∀ (rem : List subtitle_line) (st en : ℚ) (pulled : List subtitle_line),
      ((advanceSeg t st en pulled rem).2.2.1 ++ (advanceSeg t st en pulled rem).2.2.2.1
        = pulled ++ rem)
      ∧ ((advanceSeg t st en pulled rem).2.2.2.2 = false →
          t ≤ (advanceSeg t st en pulled rem).2.1)
      ∧ (((advanceSeg t st en pulled rem).1 = st
            ∧ (advanceSeg t st en pulled rem).2.1 = en)
        ∨ ∃ sg ∈ rem, (advanceSeg t st en pulled rem).1 = sg.start_time / 1000
            ∧ (advanceSeg t st en pulled rem).2.1 = sg.end_time / 1000) := by
  intro rem
  induction rem with
  | nil =>
    intro st en pulled
    rw [advanceSeg.eq_def]
    by_cases h : t ≤ en
    · rw [if_pos h]
      exact ⟨rfl, fun _ => h, Or.inl ⟨rfl, rfl⟩⟩
    · rw [if_neg h]
      exact ⟨rfl, fun hc => Bool.noConfusion hc, Or.inl ⟨rfl, rfl⟩⟩
  | cons sg rest ih =>
    intro st en pulled
    rw [advanceSeg.eq_def]
    by_cases h : t ≤ en
    · rw [if_pos h]
      exact ⟨rfl, fun _ => h, Or.inl ⟨rfl, rfl⟩⟩
    · rw [if_neg h]
      have hrec := ih (sg.start_time / 1000) (sg.end_time / 1000) (pulled ++ [sg])
      refine ⟨?_, hrec.2.1, ?_⟩
      · show (advanceSeg t (sg.start_time / 1000) (sg.end_time / 1000)
            (pulled ++ [sg]) rest).2.2.1
          ++ (advanceSeg t (sg.start_time / 1000) (sg.end_time / 1000)
            (pulled ++ [sg]) rest).2.2.2.1 = pulled ++ sg :: rest
        rw [hrec.1, List.append_assoc]
        rfl
      · rcases hrec.2.2 with ⟨h1, h2⟩ | ⟨sg2, hm, h1, h2⟩
        · exact Or.inr ⟨sg, List.mem_cons_self sg rest, h1, h2⟩
        · exact Or.inr ⟨sg2, List.mem_cons_of_mem _ hm, h1, h2⟩

theorem segStep_containment {σ γ G : Type} (C : Collab σ γ G) (minInt : ℚ)
    (segs : List subtitle_line) (s : SegState σ γ) (i : ℕ) (fr : Option ℚ)
    (h : s.pulled ++ s.rem = segs
      ∧ (∃ sg ∈ segs, s.segStart = sg.start_time / 1000
          ∧ s.segEnd = sg.end_time / 1000)
      ∧ ∀ t ∈ s.eng.accepted, ∃ sg ∈ segs,
          sg.start_time / 1000 ≤ t ∧ t ≤ sg.end_time / 1000) :
    (segStep C minInt s (i, fr)).pulled ++ (segStep C minInt s (i, fr)).rem = segs
    ∧ (∃ sg ∈ segs, (segStep C minInt s (i, fr)).segStart = sg.start_time / 1000
        ∧ (segStep C minInt s (i, fr)).segEnd = sg.end_time / 1000)
    ∧ ∀ t ∈ (segStep C minInt s (i, fr)).eng.accepted, ∃ sg ∈ segs,
        sg.start_time / 1000 ≤ t ∧ t ≤ sg.end_time / 1000 := by
  cases hstop : s.stop with
  | true =>
    have hgs : segStep C minInt s (i, fr) = s := by simp [segStep, hstop]
    rw [hgs]
    exact h
  | false =>
    cases fr with
    | none =>
      have hgs : segStep C minInt s (i, none) = s := by simp [segStep, hstop]
      rw [hgs]
      exact h
    | some t =>
      obtain ⟨e, st, en, rem, pulled, stop⟩ := s
      simp only at hstop
      subst hstop
      obtain ⟨h1, h2, h3⟩ := h
      have h1c : pulled ++ rem = segs := h1
      have h2c : ∃ sg ∈ segs, st = sg.start_time / 1000 ∧ en = sg.end_time / 1000 := h2
      have h3c : ∀ x ∈ e.accepted, ∃ sg ∈ segs,
          sg.start_time / 1000 ≤ x ∧ x ≤ sg.end_time / 1000 := h3
      have spec := advanceSeg_spec t rem st en pulled
      rcases hadv : advanceSeg t st en pulled rem with ⟨st2, en2, pulled2, rem2, stop2⟩
      rw [hadv] at spec
      dsimp only at spec
      have hP1 : pulled2 ++ rem2 = segs := spec.1.trans h1c
      have hP2 : ∃ sg ∈ segs, st2 = sg.start_time / 1000
          ∧ en2 = sg.end_time / 1000 := by
        rcases spec.2.2 with ⟨hs1, hs2⟩ | ⟨sg, hm, hs1, hs2⟩
        · rw [hs1, hs2]; exact h2c
        · refine ⟨sg, ?_, hs1, hs2⟩
          rw [← h1c]
          exact List.mem_append_right pulled hm
      cases stop2 with
      | true =>
        have hgs : segStep C minInt ⟨e, st, en, rem, pulled, false⟩ (i, some t)
            = ⟨e, st2, en2, rem2, pulled2, true⟩ := by
          simp [segStep, hadv]
        rw [hgs]
        exact ⟨hP1, hP2, h3c⟩
      | false =>
        by_cases hts : t ≤ st2
        · have hgs : segStep C minInt ⟨e, st, en, rem, pulled, false⟩ (i, some t)
              = ⟨e, st2, en2, rem2, pulled2, false⟩ := by
            simp [segStep, hadv, hts]
          rw [hgs]
          exact ⟨hP1, hP2, h3c⟩
        · by_cases hint : t - e.prevTime < minInt
          · have hgs : segStep C minInt ⟨e, st, en, rem, pulled, false⟩ (i, some t)
                = ⟨{ e with total := e.total + 1 }, st2, en2, rem2, pulled2, false⟩ := by
              simp [segStep, hadv, hts, hint]
            rw [hgs]
            exact ⟨hP1, hP2, h3c⟩
          · have hgs : segStep C minInt ⟨e, st, en, rem, pulled, false⟩ (i, some t)
                = ⟨acceptFrame C { e with total := e.total + 1 } t i,
                   st2, en2, rem2, pulled2, false⟩ := by
              simp [segStep, hadv, hts, hint]
            rw [hgs]
            refine ⟨hP1, hP2, ?_⟩
            intro x hx
            have hxacc : x ∈ e.accepted ++ [t] := by
              have := (acceptFrame_core C { e with total := e.total + 1 } t i).1
              rw [this] at hx
              exact hx
            rcases List.mem_append.mp hxacc with hxa | hxt
            · exact h3c x hxa
            · have hxeq : x = t := by simpa using hxt
              subst hxeq
              rcases hP2 with ⟨sg, hm, hs1, hs2⟩
              refine ⟨sg, hm, ?_, ?_⟩
              · rw [← hs1]
                exact le_of_lt (not_le.mp hts)
              · rw [← hs2]
                exact spec.2.1 rfl

/-- **C7**: for every run of the segment-aware engine (on a non-empty
segment sequence `sg :: rest`), every frame accepted for buffering has a
timestamp lying within `[start/1000, end/1000]` of some supplied segment,
and segments are consumed strictly forward in supplied order: the pulled
segments followed by the not-yet-pulled remainder always reconstitute the
supplied sequence, so no segment is ever revisited after the tracker
advances past it. -/
theorem C7_segment_containment {σ γ G : Type} (C : Collab σ γ G) (minInt : ℚ)
    (buf0 : σ) (gst0 : γ) (sg : subtitle_line) (rest : List subtitle_line)
    (frames : List (Option ℚ)) :
    (∀ t ∈ (SegmentSampler.run C minInt buf0 gst0 sg rest frames).eng.accepted,
      ∃ sg2 ∈ sg :: rest, sg2.start_time / 1000 ≤ t ∧ t ≤ sg2.end_time / 1000)
    ∧ (SegmentSampler.run C minInt buf0 gst0 sg rest frames).pulled
        ++ (SegmentSampler.run C minInt buf0 gst0 sg rest frames).rem
        = sg :: rest := by
  have key := segLoop_inv
    (P := fun s : SegState σ γ =>
      s.pulled ++ s.rem = sg :: rest
      ∧ (∃ sg2 ∈ sg :: rest, s.segStart = sg2.start_time / 1000
          ∧ s.segEnd = sg2.end_time / 1000)
      ∧ ∀ t ∈ s.eng.accepted, ∃ sg2 ∈ sg :: rest,
          sg2.start_time / 1000 ≤ t ∧ t ≤ sg2.end_time / 1000)
    (fun s i fr hs => segStep_containment C minInt (sg :: rest) s i fr hs)
    frames 0
    ⟨initState buf0 gst0, sg.start_time / 1000, sg.end_time / 1000, rest, [sg], false⟩
    ⟨rfl, ⟨sg, List.mem_cons_self sg rest, rfl, rfl⟩, by simp [initState]⟩
  refine ⟨?_, key.1⟩
  intro t ht
  refine key.2.2 t ?_
  have heq : (SegmentSampler.run C minInt buf0 gst0 sg rest frames).eng.accepted
      = (SegmentSampler.decodeLoop C minInt 0
          ⟨initState buf0 gst0, sg.start_time / 1000, sg.end_time / 1000,
            rest, [sg], false⟩ frames).eng.accepted :=
    (flush_buffer_core C _).1
  rw [← heq]
  exact ht

/-- Witness for C7: the spec's example scenario — segments
`[{0,2000},{5000,7000}]` (ms) and frame timestamps `[0.5, 3.0, 6.0]` (s);
the accepted frame at `t = 6` lies inside the second segment. -/
theorem C7_segment_containment_witness :
    ∃ sg2 ∈ [(⟨0, 2000⟩ : subtitle_line), ⟨5000, 7000⟩],
      sg2.start_time / 1000 ≤ (6:ℚ) ∧ (6:ℚ) ≤ sg2.end_time / 1000 :=
  (C7_segment_containment trivialCollab 1 () () ⟨0, 2000⟩ [⟨5000, 7000⟩]
      [some (1/2), some 3, some 6]).1 6 (by
    norm_num [SegmentSampler.run, SegmentSampler.decodeLoop, segStep,
      advanceSeg.eq_def, acceptFrame, flush_buffer, flushStep, initState,
      trivialCollab])

theorem processBatch_eq (devnull : Bool) :
    ∀ b : List FrameObject,
      processBatch devnull b
        = ((if devnull then []
            else (b.takeWhile (fun f => !f.isEnd)).filterMap
              (fun f => if f.frame.any Img.isPIL then some f.frame_time else none)),
           b.any (fun f => f.isEnd)) := by
  intro b
  induction b with
  | nil => cases devnull <;> simp [processBatch]
  | cons f fs ih =>
    by_cases hEnd : f.isEnd
    · cases devnull <;>
        simp [processBatch, hEnd, List.takeWhile_cons, List.any_cons]
    · cases devnull <;>
        by_cases hp : f.frame.any Img.isPIL <;>
          simp [processBatch, hEnd, hp, ih, List.takeWhile_cons,
            List.filterMap_cons, List.any_cons]

theorem queue_reader_isSome (devnull : Bool) :
    ∀ batches : List (List FrameObject),
      (Worker.queue_reader devnull batches).isSome = true
        ↔ ∃ b ∈ batches, ∃ f ∈ b, f.isEnd = true := by
  intro batches
  induction batches with
  | nil => simp [Worker.queue_reader]
  | cons b bs ih =>
    have hpb := processBatch_eq devnull b
    by_cases hterm : b.any (fun f => f.isEnd) = true
    · have hgs : Worker.queue_reader devnull (b :: bs)
          = some (processBatch devnull b).1 := by
        simp [Worker.queue_reader, hpb, hterm]
      rw [hgs]
      constructor
      · intro _
        rcases List.any_eq_true.mp hterm with ⟨f, hf, hEnd⟩
        exact ⟨b, List.mem_cons_self b bs, f, hf, hEnd⟩
      · intro _
        rfl
    · have hgs : Worker.queue_reader devnull (b :: bs)
          = (Worker.queue_reader devnull bs).map
              (fun l => (processBatch devnull b).1 ++ l) := by
        simp [Worker.queue_reader, hpb, hterm]
      rw [hgs]
      have hsm : ((Worker.queue_reader devnull bs).map
          (fun l => (processBatch devnull b).1 ++ l)).isSome
          = (Worker.queue_reader devnull bs).isSome := by
        cases Worker.queue_reader devnull bs <;> rfl
      rw [hsm, ih]
      constructor
      · rintro ⟨b2, hb2, hrest⟩
        exact ⟨b2, List.mem_cons_of_mem _ hb2, hrest⟩
      · rintro ⟨b2, hb2, f, hf, hEnd⟩
        rcases List.mem_cons.mp hb2 with rfl | hb2r
        · exact absurd (List.any_eq_true.mpr ⟨f, hf, hEnd⟩) hterm
        · exact ⟨b2, hb2r, f, hf, hEnd⟩

theorem queue_reader_value (devnull : Bool) :
    ∀ (pre : List (List FrameObject)) (b : List FrameObject)
      (post : List (List FrameObject)),
      (∀ c ∈ pre, ∀ f ∈ c, f.isEnd = false) →
      (∃ f ∈ b, f.isEnd = true) →
      Worker.queue_reader devnull (pre ++ b :: post)
        = some ((pre.map (fun c => (processBatch devnull c).1)).flatten
            ++ (processBatch devnull b).1) := by
  intro pre
  induction pre with
  | nil =>
    intro b post hpre hb
    have hterm : b.any (fun f => f.isEnd) = true := by
      rcases hb with ⟨f, hf, he⟩
      exact List.any_eq_true.mpr ⟨f, hf, he⟩
    simp [Worker.queue_reader, processBatch_eq devnull b, hterm]
  | cons c cs ih =>
    intro b post hpre hb
    have hcterm : ¬ (c.any (fun f => f.isEnd) = true) := by
      intro hc
      rcases List.any_eq_true.mp hc with ⟨f, hf, he⟩
      rw [hpre c (List.mem_cons_self c cs) f hf] at he
      exact Bool.noConfusion he
    have hgs : Worker.queue_reader devnull (c :: (cs ++ b :: post))
        = (Worker.queue_reader devnull (cs ++ b :: post)).map
            (fun l => (processBatch devnull c).1 ++ l) := by
      simp [Worker.queue_reader, processBatch_eq devnull c, hcterm]
    rw [List.cons_append, hgs,
      ih b post (fun c2 h2 => hpre c2 (List.mem_cons_of_mem _ h2)) hb]
    simp [List.append_assoc]

/-- **C10**: the consumer loop never returns before observing a
terminal-marked `FrameObject`: it returns exactly when some arriving batch
contains an end-marked object (and polls forever otherwise, modelled by
`none`); within a batch the scan stops at the first end-marked object —
the saved names are exactly the `frame_time` stems of the real-image,
non-discard-mode frames strictly before it (`takeWhile`); and across the
run, the value returned collects every such frame inspected before the
terminal one. -/
theorem C10_queue_reader (devnull : Bool) (batches : List (List FrameObject)) :
    ((Worker.queue_reader devnull batches).isSome = true
      ↔ ∃ b ∈ batches, ∃ f ∈ b, f.isEnd = true)
    ∧ (∀ b : List FrameObject, processBatch devnull b
        = ((if devnull then []
            else (b.takeWhile (fun f => !f.isEnd)).filterMap
              (fun f => if f.frame.any Img.isPIL then some f.frame_time else none)),
           b.any (fun f => f.isEnd)))
    ∧ (∀ (pre : List (List FrameObject)) (b : List FrameObject)
        (post : List (List FrameObject)),
        (∀ c ∈ pre, ∀ f ∈ c, f.isEnd = false) →
        (∃ f ∈ b, f.isEnd = true) →
        Worker.queue_reader devnull (pre ++ b :: post)
          = some ((pre.map (fun c => (processBatch devnull c).1)).flatten
              ++ (processBatch devnull b).1)) :=
  ⟨queue_reader_isSome devnull batches, processBatch_eq devnull,
    queue_reader_value devnull⟩

/-- Witness for C10: one real-image frame at `t = 3` followed by the
sentinel batch; the consumer returns having saved exactly `3.jpg`. -/
theorem C10_queue_reader_witness :
    Worker.queue_reader false
        [[{ frame := some { isPIL := true }, isEnd := false, frame_time := 3 }],
         [{ frame := none, isEnd := true, frame_time := 0 }]]
      = some [3] := by
  have h := (C10_queue_reader false []).2.2
    [[{ frame := some { isPIL := true }, isEnd := false, frame_time := 3 }]]
    [{ frame := none, isEnd := true, frame_time := 0 }] []
    (by simp) (by simp)
  simpa [processBatch] using h

/-- Witness for C1 (amended): segment `[1000ms, 2000ms]` as current segment
(boundaries `1` and `2` seconds): a frame at exactly `t = 2` (end boundary)
reaches the `total` increment, while a frame at exactly `t = 1` (start
boundary) leaves the state untouched. -/
theorem C1_segment_boundaries_witness :
    (segStep trivialCollab 1
        (⟨initState () (), 1, 2, [], [⟨1000, 2000⟩], false⟩ : SegState Unit Unit)
        (0, some 2)).eng.total = 1
    ∧ segStep trivialCollab 1
        (⟨initState () (), 1, 2, [], [⟨1000, 2000⟩], false⟩ : SegState Unit Unit)
        (0, some 1)
      = ⟨initState () (), 1, 2, [], [⟨1000, 2000⟩], false⟩ := by
  constructor
  · have h := ((C1_segment_boundaries trivialCollab 1
        ⟨initState () (), 1, 2, [], [⟨1000, 2000⟩], false⟩ 2 0 rfl).1
        rfl (show (1:ℚ) < 2 by norm_num)).2.2
    simpa [initState] using h
  · exact (C1_segment_boundaries trivialCollab 1
        ⟨initState () (), 1, 2, [], [⟨1000, 2000⟩], false⟩ 1 0 rfl).2
      (show (1:ℚ) ≤ 2 by norm_num) (le_refl 1)
